import Mathlib

/-!
Verification development for the `randy-ng` terminal number-guessing game.

The definitions below are a shallow embedding of `src/app.rs` (together with
the data model of `src/utils.rs`).  Text is modelled as `List Char`
(`String::push` appends, `String::pop` removes the last character, and the
splits performed by the source land on `".."` boundaries, so char-level
modelling agrees with Rust's byte-level `split_at` at every call site).
Machine integers: `usize` is modelled as `Nat` with an explicit overflow
bound `2 ^ 64 - 1` (64-bit platform) where parsing can overflow; the `u16`
scroll offset and `u8` score are modelled as `Nat` (no claim depends on
their wrap-around, and the only decrement is proved not to underflow).
Fallible code — every `.expect(..)` that can actually fire — is modelled
with `Option`, `none` standing for a panic.
-/

/-- Items of the main menu (`utils.rs`, `MainMenuItem`). -/
inductive MainMenuItem where
  | Play
  | Options
  | Exit
deriving DecidableEq

/-- Items of the options menu (`utils.rs`, `OptionsMenuItem`). -/
inductive OptionsMenuItem where
  | Model
  | Return
deriving DecidableEq

/-- Focused prompt of the in-game screen (`utils.rs`, `GameItem`). -/
inductive GameItem where
  | Range
  | Input
deriving DecidableEq

/-- Items of the end-of-round menu (`utils.rs`, `EndMenuItem`). -/
inductive EndMenuItem where
  | Repeat
  | Exit
deriving DecidableEq

/-- In-game sub-screens (`utils.rs`, `GameScreen`). -/
inductive GameScreen where
  | Game (item : GameItem)
  | EndMenu (item : EndMenuItem)
deriving DecidableEq

/-- The screen state (`utils.rs`, `Screen`). -/
inductive Screen where
  | MainMenu (item : MainMenuItem)
  | OptionsMenu (item : OptionsMenuItem)
  | InGame (sub : GameScreen)
  | ModelMenu
deriving DecidableEq

/-- Outcome of a round (`utils.rs`, `RandomResult`). -/
inductive RandomResult where
  | Correct
  | Incorrect
deriving DecidableEq

/-- Direction for the model-menu viewport update (`utils.rs`, `ModelMenuDirection`). -/
inductive ModelMenuDirection where
  | Up
  | Down
deriving DecidableEq

/-- Kind of a textual edit (`utils.rs`, `OperationType`). -/
inductive OperationType where
  | Addition
  | Deletion
  | SwitchFocus
deriving DecidableEq

/-- Value of a decimal digit string read left to right, as Rust's
`usize::from_str` computes it (leading zeros allowed). -/
def digitsToNat (s : List Char) : Nat :=
  s.foldl (fun acc c => acc * 10 + (c.toNat - '0'.toNat)) 0

/-- Largest `usize` value on the 64-bit platforms the program targets. -/
def USIZE_MAX : Nat := 2 ^ 64 - 1

/-- Rust's `str::parse::<usize>()` on the strings this program feeds it.
Every call site first checks the text against an all-digit regex, so the
optional leading `+` sign accepted by `usize::from_str` is unreachable and
is not modelled.  `none` is a parse error — a numeral over `USIZE_MAX`
overflows — which the source turns into a panic via `.expect(..)`. -/
def parseUsize (s : List Char) : Option Nat :=
  if s ≠ [] ∧ s.all Char.isDigit then
    if digitsToNat s ≤ USIZE_MAX then some (digitsToNat s) else none
  else none

/-- Split a char list at the first occurrence of the substring `".."`:
returns the text before it and the remainder starting with the two dots,
exactly as `s.split_at(s.find("..").unwrap())` does; `none` when `".."`
does not occur (where the source's `.expect(..)` would panic). -/
def splitFirstDotDot : List Char → Option (List Char × List Char)
  | [] => none
  | '.' :: '.' :: rest => some ([], '.' :: '.' :: rest)
  | c :: rest =>
    (splitFirstDotDot rest).map (fun p => (c :: p.1, p.2))

/-- The regex `\A\d+\.\.\d+\z` (`ranged_re` in `app.rs`): digits, two
literal dots, digits, nothing else.  (The `regex` crate's `\d` also accepts
non-ASCII Unicode digits, which `usize` parsing would then panic on; no
claim exercises them and they are not modelled.) -/
def matchRangedRe (s : List Char) : Bool :=
  match splitFirstDotDot s with
  | some (a, _ :: _ :: b) => !a.isEmpty && a.all Char.isDigit && !b.isEmpty && b.all Char.isDigit
  | _ => false

/-- The regex `\A\d+\z` (`input_re` in `app.rs`): one non-empty run of digits. -/
def matchInputRe (s : List Char) : Bool :=
  !s.isEmpty && s.all Char.isDigit

/-- The range-bound extraction shared by `validate_input` and
`process_random` in `app.rs`: split at the first `".."`, keep the prefix as
the start text; reverse the remainder, split the reversed text at its first
`".."`, and parse that prefix — i.e. the digits after the dots read
backwards — as the end bound.  (Reversing is how the source locates the
dots from the right; it parses the still-reversed digits, so `"5..10"`
yields the bounds `(5, 1)`.)  `none` models the `.expect(..)` panics. -/
def parseRange (r : List Char) : Option (Nat × Nat) :=
  match splitFirstDotDot r with
  | none => none
  | some (startStr, endRest) =>
    match splitFirstDotDot endRest.reverse with
    | none => none
    | some (endRev, _) =>
      match parseUsize startStr, parseUsize endRev with
      | some s, some e => some (s, e)
      | _, _ => none

/-- `App::validate_input` (`app.rs` lines 112-134): both regexes must
match; then the range is parsed via `parseRange`, the guess via
`parseUsize`, and the checks `start < end` and `start ≤ guess ≤ end` are
applied.  `some b` is a normal return of `b`; `none` is a panic of one of
the `.expect(..)` calls (reachable only through numeral overflow once the
regexes have matched). -/
def validate_input (range_input guess : List Char) : Option Bool :=
  if matchRangedRe range_input && matchInputRe guess then
    match parseRange range_input, parseUsize guess with
    | some (s, e), some g => some (decide (s < e) && (decide (g ≥ s) && decide (g ≤ e)))
    | _, _ => none
  else
    some false

/-- Modelled from the spec: the input validation of spec §4.3, which parses
the two bounds of `a..b` directly (no digit reversal) and treats numerals
over the representable range as a validation failure rather than a crash.
Used only to exhibit the divergence of `validate_input` from the spec. -/
def spec_validate_input (range_input guess : List Char) : Bool :=
  match splitFirstDotDot range_input with
  | some (a, _ :: _ :: b) =>
    if !a.isEmpty && a.all Char.isDigit && !b.isEmpty && b.all Char.isDigit
        && !guess.isEmpty && guess.all Char.isDigit then
      match parseUsize a, parseUsize b, parseUsize guess with
      | some s, some e, some g => decide (s < e) && (decide (g ≥ s) && decide (g ≤ e))
      | _, _, _ => false
    else false
  | _ => false

/-- The mutable application state (`app.rs`, `struct App`).  `models_view`
holds the text of the `Line` widgets the model-menu render produced (the
scroll logic compares the selected model against `models_view.last()
.to_string()`, and a styled `Line` displays exactly its model text, so the
strings suffice).  `selectors_view` is written by the renderer but never
read back, so it is not modelled.  The `Regex` fields are compiled
constants, embedded as `matchRangedRe` / `matchInputRe`; the `Rng` is
modelled by a seed consumed by `rngDraw`. -/
structure AppState where
  exit : Bool
  screen : Screen
  score : Nat
  range_input : List Char
  input : List Char
  result : Option RandomResult
  model : String
  models : List String
  models_view : List String
  model_view_selected : String
  model_view_offset : Nat
  api_key : String
  extra_line_help : Bool
  processing_request : Bool
  rng : Nat
  chat_completion_output : String
deriving DecidableEq

/-- One remote chat-completion attempt as seen by `process_request`: a
successfully parsed body carrying its message content, or a transport /
decode error. -/
inductive NetResp where
  | ok (content : String)
  | err
deriving DecidableEq

/-- One raw key event as classified by the `match key.code` in
`handle_events` (`app.rs` lines 440-476).  `other` covers every key code
the match ignores. -/
inductive KeyEvt where
  | char (c : Char)
  | tab
  | backspace
  | enter
  | other
deriving DecidableEq

/-- Inputs the environment supplies to one loop iteration: the visible row
budget of the model list (terminal-dependent), the state of the session
RNG, the successive chat-completion responses, the model-listing fetch
result, and the key event delivered by `poll`/`read` (if any). -/
structure Env where
  cap : Nat
  rngSeed : Nat
  resps : List NetResp
  fetched : List String
  key : Option KeyEvt
deriving DecidableEq

/-- `fastrand::Rng::usize(lo..=hi)`: one draw of the session RNG, an
external collaborator whose contract (spec §4.4) is a uniformly distributed
integer in the inclusive range; any value of the seed produces some
in-range value, which is all the program relies on. -/
def rngDraw (seed lo hi : Nat) : Nat :=
  lo + seed % (hi - lo + 1)

/-- `App::fetch_models` (`app.rs` lines 98-109): pushes every fetched model
identifier onto `models`.  Nothing clears the vector first. -/
def fetch_models (fetched : List String) (st : AppState) : AppState :=
  { st with models := st.models ++ fetched }

/-- `App::process_random` (`app.rs` lines 138-158): re-parse the range and
guess exactly as `validate_input` does, draw a random number in the
inclusive parsed range, and store `Correct` iff the guess equals the draw.
`none` covers the parse `.expect(..)` panics and the panic of
`Rng::usize` on an empty range. -/
def process_random (seed : Nat) (st : AppState) : Option AppState :=
  match parseRange st.range_input, parseUsize st.input with
  | some (s, e), some g =>
    if s ≤ e then
      some { st with result := some (if g = rngDraw seed s e then RandomResult.Correct
                                     else RandomResult.Incorrect) }
    else none
  | _, _ => none

/-- `App::process_request` (`app.rs` lines 167-199): issue the chat
completion; on a successful response with empty content, retry; on
non-empty content, store it and stop; on a transport error, fail (the
`Result` error propagates to `main`).  The list holds the successive
responses the remote produces; an exhausted list means the retry loop never
received a usable response. -/
def process_request : List NetResp → AppState → Option AppState
  | [], _ => none
  | NetResp.err :: _, _ => none
  | NetResp.ok content :: rest, st =>
    if content = "" then process_request rest st
    else some { st with chat_completion_output := content }

/-- `App::handle_request` (`app.rs` lines 213-221): when a request is
pending, resolve the round, perform the remote call, move to the end menu
and clear the processing flag. -/
def handle_request (env : Env) (st : AppState) : Option AppState :=
  if st.processing_request then
    (process_random env.rngSeed st).bind fun st1 =>
      (process_request env.resps st1).map fun st2 =>
        { st2 with screen := Screen.InGame (GameScreen.EndMenu EndMenuItem.Repeat),
                   processing_request := false }
  else some st

/-- First index at which the scan loops of `handle_model_menu_updates` fire:
the element equals the selected model and differs from the excluded element
(the catalogue's last element when browsing down, its first when browsing
up).  The Rust loops `break` at that index. -/
def findAdv (sel excl : String) : List String → Option Nat
  | [] => none
  | m :: rest =>
    if m = sel ∧ m ≠ excl then some 0
    else (findAdv sel excl rest).map (fun i => i + 1)

/-- `App::handle_model_menu_updates`, `ModelMenuDirection::Down` branch
(`app.rs` lines 228-267).  When the scan fires at index `i`, the source
compares the selected model with `models_view.last()` (panicking if the
view is empty), records `models[i+1]` as `first_model_after_view` when they
match, always re-selects `models[i+1]` (panicking if absent), and finally
increments the offset when `first_model_after_view` was set to a non-empty
string (the re-selected model always equals it when set). -/
def model_menu_down (st : AppState) : Option AppState :=
  match findAdv st.model_view_selected (st.models.getLast?.getD "") st.models with
  | none => some st
  | some i =>
    match st.models_view.getLast?, st.models[i + 1]? with
    | some viewLast, some nxt =>
      some { st with
        model_view_selected := nxt,
        model_view_offset :=
          if st.model_view_selected = viewLast ∧ nxt ≠ "" then st.model_view_offset + 1
          else st.model_view_offset }
    | _, _ => none

/-- `App::handle_model_menu_updates`, `ModelMenuDirection::Up` branch
(`app.rs` lines 268-307), symmetric to `model_menu_down`: the comparison is
against `models_view.first()`, the re-selection is `models[i-1]`, and the
offset is decremented.  The scan never fires at index 0 (the element there
is the excluded first element), so the `usize` subtraction cannot wrap. -/
def model_menu_up (st : AppState) : Option AppState :=
  match findAdv st.model_view_selected (st.models.head?.getD "") st.models with
  | none => some st
  | some i =>
    match st.models_view.head?, st.models[i - 1]? with
    | some viewFirst, some prv =>
      some { st with
        model_view_selected := prv,
        model_view_offset :=
          if st.model_view_selected = viewFirst ∧ prv ≠ "" then st.model_view_offset - 1
          else st.model_view_offset }
    | _, _ => none

/-- `App::handle_model_menu_updates` (`app.rs` lines 226-309). -/
def handle_model_menu_updates (dir : ModelMenuDirection) (st : AppState) : Option AppState :=
  match dir with
  | ModelMenuDirection.Down => model_menu_down st
  | ModelMenuDirection.Up => model_menu_up st

/-- `App::handle_textual_input` (`app.rs` lines 313-339).  The dispatcher
always supplies a character for an `Addition`; `none` there models the
`char.expect(..)` panic. -/
def handle_textual_input (op : OperationType) (c : Option Char) (st : AppState) :
    Option AppState :=
  match st.screen with
  | Screen.InGame (GameScreen.Game GameItem.Range) =>
    match op with
    | OperationType.Addition =>
      match c with
      | some ch => some { st with range_input := st.range_input ++ [ch] }
      | none => none
    | OperationType.Deletion => some { st with range_input := st.range_input.dropLast }
    | OperationType.SwitchFocus =>
      some { st with screen := Screen.InGame (GameScreen.Game GameItem.Input) }
  | Screen.InGame (GameScreen.Game GameItem.Input) =>
    match op with
    | OperationType.Addition =>
      match c with
      | some ch => some { st with input := st.input ++ [ch] }
      | none => none
    | OperationType.Deletion => some { st with input := st.input.dropLast }
    | OperationType.SwitchFocus =>
      some { st with screen := Screen.InGame (GameScreen.Game GameItem.Range) }
  | _ => some st

/-- `App::handle_l_input` (`app.rs` lines 343-377).  Entering the model
menu performs the fetch (its result is the `fetched` argument) and then
selects `models.first()`, whose `.expect(..)` panic on an empty catalogue
is the `none` case. -/
def handle_l_input (fetched : List String) (st : AppState) : Option AppState :=
  match st.screen with
  | Screen.MainMenu MainMenuItem.Play =>
    some { st with screen := Screen.InGame (GameScreen.Game GameItem.Range) }
  | Screen.MainMenu MainMenuItem.Options =>
    some { st with screen := Screen.OptionsMenu OptionsMenuItem.Model }
  | Screen.MainMenu MainMenuItem.Exit => some { st with exit := true }
  | Screen.OptionsMenu OptionsMenuItem.Model =>
    let st' := fetch_models fetched { st with screen := Screen.ModelMenu, model_view_offset := 0 }
    match st'.models.head? with
    | none => none
    | some m0 => some { st' with model_view_selected := m0 }
  | Screen.OptionsMenu OptionsMenuItem.Return =>
    some { st with screen := Screen.MainMenu MainMenuItem.Play }
  | Screen.ModelMenu => some { st with model := st.model_view_selected }
  | Screen.InGame (GameScreen.EndMenu EndMenuItem.Repeat) =>
    some { st with screen := Screen.InGame (GameScreen.Game GameItem.Range) }
  | Screen.InGame (GameScreen.EndMenu EndMenuItem.Exit) => some { st with exit := true }
  | _ => some st

/-- `App::handle_k_input` (`app.rs` lines 381-400). -/
def handle_k_input (st : AppState) : Option AppState :=
  match st.screen with
  | Screen.MainMenu MainMenuItem.Exit =>
    some { st with screen := Screen.MainMenu MainMenuItem.Options }
  | Screen.MainMenu MainMenuItem.Options =>
    some { st with screen := Screen.MainMenu MainMenuItem.Play }
  | Screen.OptionsMenu OptionsMenuItem.Return =>
    some { st with screen := Screen.OptionsMenu OptionsMenuItem.Model }
  | Screen.ModelMenu => handle_model_menu_updates ModelMenuDirection.Up st
  | Screen.InGame (GameScreen.EndMenu EndMenuItem.Exit) =>
    some { st with screen := Screen.InGame (GameScreen.EndMenu EndMenuItem.Repeat) }
  | _ => some st

/-- `App::handle_j_input` (`app.rs` lines 404-423). -/
def handle_j_input (st : AppState) : Option AppState :=
  match st.screen with
  | Screen.MainMenu MainMenuItem.Play =>
    some { st with screen := Screen.MainMenu MainMenuItem.Options }
  | Screen.MainMenu MainMenuItem.Options =>
    some { st with screen := Screen.MainMenu MainMenuItem.Exit }
  | Screen.OptionsMenu OptionsMenuItem.Model =>
    some { st with screen := Screen.OptionsMenu OptionsMenuItem.Return }
  | Screen.ModelMenu => handle_model_menu_updates ModelMenuDirection.Down st
  | Screen.InGame (GameScreen.EndMenu EndMenuItem.Repeat) =>
    some { st with screen := Screen.InGame (GameScreen.EndMenu EndMenuItem.Exit) }
  | _ => some st

/-- `App::handle_h_input` (`app.rs` lines 427-431): only the model menu
reacts; every other screen is untouched. -/
def handle_h_input (st : AppState) : AppState :=
  match st.screen with
  | Screen.ModelMenu => { st with screen := Screen.OptionsMenu OptionsMenuItem.Model }
  | _ => st

/-- Whether textual editing is in scope: the guard
`matches!(self.screen, Screen::InGame(GameScreen::Game(_)))` of the first
four match arms of `handle_events`. -/
def isGameText : Screen → Bool
  | Screen.InGame (GameScreen.Game _) => true
  | _ => false

/-- The `match key.code` of `App::handle_events` (`app.rs` lines 440-476).
The first four arms are guarded by being on the text-entry screen with no
request processing; a character that fails that guard falls through to the
`'q'`/`'j'`/`'k'`/`'l'`/`'h'` arms, and any other key to the final
catch-all. -/
def dispatch (fetched : List String) (k : KeyEvt) (st : AppState) : Option AppState :=
  if isGameText st.screen && !st.processing_request then
    match k with
    | KeyEvt.char c => handle_textual_input OperationType.Addition (some c) st
    | KeyEvt.tab => handle_textual_input OperationType.SwitchFocus none st
    | KeyEvt.backspace => handle_textual_input OperationType.Deletion none st
    | KeyEvt.enter =>
      match validate_input st.range_input st.input with
      | some true => some { st with extra_line_help := false, processing_request := true }
      | some false => some { st with extra_line_help := true }
      | none => none
    | KeyEvt.other => some st
  else
    match k with
    | KeyEvt.char c =>
      if c = 'q' then some { st with exit := true }
      else if c = 'j' then handle_j_input st
      else if c = 'k' then handle_k_input st
      else if c = 'l' then handle_l_input fetched st
      else if c = 'h' then some (handle_h_input st)
      else some st
    | _ => some st

/-- `App::handle_events` (`app.rs` lines 435-481): first the pending
request, then — when `poll` delivered an event — the key dispatch. -/
def handle_events (env : Env) (st : AppState) : Option AppState :=
  (handle_request env st).bind fun st1 =>
    match env.key with
    | none => some st1
    | some k => dispatch env.fetched k st1

/-- The render pass of `ui.rs` as far as it feeds back into the state: the
model menu rebuilds `models_view` from `models` by skipping `offset`
entries and truncating to the visible height (`ui.rs` lines 225-250), and
the end menu reads `result` through an `.expect(..)` (`ui.rs` line 417);
every other screen only reads state. -/
def render (cap : Nat) (st : AppState) : Option AppState :=
  match st.screen with
  | Screen.ModelMenu =>
    some { st with models_view := (st.models.drop st.model_view_offset).take cap }
  | Screen.InGame (GameScreen.EndMenu _) =>
    match st.result with
    | none => none
    | some _ => some st
  | _ => some st

/-- `App::run` (`app.rs` lines 203-209): while the exit flag is unset,
render and handle events.  The environment list supplies one `Env` per
iteration; the loop stops consuming them the moment `exit` is set. -/
def run : List Env → AppState → Option AppState
  | [], st => some st
  | env :: rest, st =>
    if st.exit then some st
    else ((render env.cap st).bind (handle_events env)).bind (run rest)

/-- `Default for App` (`app.rs` lines 491-519): the initial state.  The
CLI-supplied model override and API key are parameters. -/
def appDefault (cliModel : Option String) (apiKey : String) : AppState where
  exit := false
  screen := Screen.MainMenu MainMenuItem.Play
  score := 0
  range_input := []
  input := []
  result := none
  model := cliModel.getD "qwen/qwen3-32b:free"
  models := []
  models_view := []
  model_view_selected := ""
  model_view_offset := 0
  api_key := apiKey
  extra_line_help := false
  processing_request := false
  rng := 0
  chat_completion_output := ""

/-- Text-entry screen state used by the C2 counterexample. -/
def c2_counterexample_state : AppState :=
  { appDefault none "key" with screen := Screen.InGame (GameScreen.Game GameItem.Range) }

/-- End-menu state with uncleared round data, used for C4. -/
def c4_counterexample_state : AppState :=
  { appDefault none "key" with
    screen := Screen.InGame (GameScreen.EndMenu EndMenuItem.Repeat),
    range_input := "1..2".toList, input := "1".toList,
    result := some RandomResult.Incorrect }

/-- Options-menu state with a previously fetched catalogue, used for C5. -/
def c5_counterexample_state : AppState :=
  { appDefault none "key" with
    screen := Screen.OptionsMenu OptionsMenuItem.Model, models := ["m1"] }

/-- Options-menu state used for C8. -/
def c8_counterexample_state : AppState :=
  { appDefault none "key" with screen := Screen.OptionsMenu OptionsMenuItem.Model }

/-- A validated pending round, used by the C9 witness. -/
def c9_witness_state : AppState :=
  { appDefault none "key" with
    range_input := "1..5".toList, input := "3".toList, processing_request := true }

/-- Environment with one non-empty remote response, used by the C9 witness. -/
def c9_witness_env : Env :=
  { cap := 0, rngSeed := 7, resps := [NetResp.ok "yeehaw"], fetched := [], key := none }

/-- One loop iteration delivering a `'j'` key with capacity 3 (C6 scenario). -/
def c6_scenario_env : Env :=
  { cap := 3, rngSeed := 0, resps := [], fetched := [], key := some (KeyEvt.char 'j') }

/-- Model menu over five items, highlighted at the first (C6 scenario). -/
def c6_scenario_start : AppState :=
  { appDefault none "key" with
    screen := Screen.ModelMenu,
    models := ["m0", "m1", "m2", "m3", "m4"],
    model_view_selected := "m0" }

/-- Three-item model menu used by the C6 witness. -/
def c6_witness_state : AppState :=
  { appDefault none "key" with
    screen := Screen.ModelMenu,
    models := ["a", "b", "c"],
    models_view := ["a", "b", "c"],
    model_view_selected := "b" }

/-- Model menu whose catalogue contains an empty identifier, with a
one-row window rendered at offset 0 (C7 counterexample). -/
def c7_counterexample_state : AppState :=
  { appDefault none "key" with
    screen := Screen.ModelMenu,
    models := ["x", ""],
    models_view := ["x"],
    model_view_selected := "x" }

/-- Three-item model menu with a two-row window, used by the C7 witness. -/
def c7_witness_state : AppState :=
  { appDefault none "key" with
    screen := Screen.ModelMenu,
    models := ["u", "v", "w"],
    models_view := ["u", "v"],
    model_view_selected := "v" }

example : validate_input "1..2".toList "1".toList = some true := by decide

example : validate_input "5..10".toList "7".toList = some false := by decide

example : spec_validate_input "5..10".toList "7".toList = true := by decide

example : validate_input "10..1".toList "5".toList = some false := by decide

example : validate_input "1x..2".toList "1".toList = some false := by decide

example : validate_input "1..2".toList "18446744073709551616".toList = none := by decide

/-- A scan for an absent selected model finds nothing. -/
theorem findAdv_eq_none (sel excl : String) (l : List String) (h : sel ∉ l) :
    findAdv sel excl l = none := by
  induction l with
  | nil => rfl
  | cons m rest ih =>
    simp only [findAdv]
    rw [if_neg, ih (fun hm => h (List.mem_cons_of_mem m hm))]
    · rfl
    · rintro ⟨h1, _⟩
      exact h (h1 ▸ List.mem_cons_self m rest)

/-- On a duplicate-free catalogue the scan fires exactly at the index of the
selected model, unless that model is the excluded element. -/
theorem findAdv_nodup (sel excl : String) (l : List String) (i : Nat) (hnd : l.Nodup)
    (hi : i < l.length) (hsel : l[i] = sel) :
    findAdv sel excl l = if sel = excl then none else some i := by
  induction l generalizing i with
  | nil => simp at hi
  | cons m rest ih =>
    rcases List.nodup_cons.mp hnd with ⟨hm, hrest⟩
    match i with
    | 0 =>
      simp only [List.getElem_cons_zero] at hsel
      subst hsel
      simp only [findAdv]
      by_cases hq : m = excl
      · have hcond : ¬(True ∧ m ≠ excl) := by simp [hq]
        rw [if_neg hcond, if_pos hq, findAdv_eq_none m excl rest hm]
        rfl
      · have hcond : True ∧ m ≠ excl := ⟨trivial, hq⟩
        rw [if_pos hcond, if_neg hq]
    | j + 1 =>
      have hj : j < rest.length := by simpa using hi
      have hsel' : rest[j] = sel := by simpa using hsel
      have hmem : sel ∈ rest := hsel' ▸ List.getElem_mem hj
      have hmne : ¬(m = sel ∧ m ≠ excl) := by
        rintro ⟨h1, _⟩
        exact hm (h1 ▸ hmem)
      simp only [findAdv, if_neg hmne, ih j hrest hj hsel']
      by_cases hq : sel = excl
      · rw [if_pos hq, if_pos hq]
        rfl
      · rw [if_neg hq, if_neg hq]
        rfl

/-- Last entry of the rendered window `catalogue[offset .. offset+cap]`. -/
theorem view_getLast (l : List String) (off cap : Nat) (hoff : off < l.length) (hcap : 0 < cap) :
    ((l.drop off).take cap).getLast? = l[min (off + cap) l.length - 1]? := by
  rw [List.getLast?_eq_getElem?]
  have hlen : ((l.drop off).take cap).length = min cap (l.length - off) := by
    simp [List.length_take, List.length_drop]
  rw [hlen, List.getElem?_take, if_pos (by omega), List.getElem?_drop]
  congr 1
  omega

/-- First entry of the rendered window `catalogue[offset .. offset+cap]`. -/
theorem view_head (l : List String) (off cap : Nat) (hcap : 0 < cap) :
    ((l.drop off).take cap).head? = l[off]? := by
  rw [List.head?_eq_getElem?, List.getElem?_take, if_pos hcap, List.getElem?_drop,
    Nat.add_zero]

/-- Characterisation of the downward viewport update on a well-formed state:
with a duplicate-free catalogue of non-empty identifiers, the selection at
index `i` inside the rendered window, the update is a no-op at the last
element and otherwise advances to index `i+1`, bumping the offset exactly
when the old selection sat on the last visible row. -/
theorem model_menu_down_char (st : AppState) (cap i : Nat) (hi : i < st.models.length)
    (hnd : st.models.Nodup)
    (hne : ∀ m ∈ st.models, m ≠ "")
    (hsel : st.model_view_selected = st.models[i])
    (hview : st.models_view = (st.models.drop st.model_view_offset).take cap)
    (hlo : st.model_view_offset ≤ i) (hhi : i < st.model_view_offset + cap) :
    model_menu_down st =
      if h : i + 1 < st.models.length then
        some { st with
          model_view_selected := st.models[i + 1],
          model_view_offset :=
            if i + 1 = st.model_view_offset + cap then st.model_view_offset + 1
            else st.model_view_offset }
      else some st := by
  have hlast : st.models.getLast?.getD "" = st.models[st.models.length - 1] := by
    rw [List.getLast?_eq_getElem?, List.getElem?_eq_getElem (by omega)]
    rfl
  have hfind := findAdv_nodup st.model_view_selected (st.models[st.models.length - 1])
    st.models i hnd hi hsel.symm
  by_cases h : i + 1 < st.models.length
  · rw [dif_pos h]
    have hne1 : st.model_view_selected ≠ st.models[st.models.length - 1] := by
      rw [hsel]
      intro hc
      have := (hnd.getElem_inj_iff).mp hc
      omega
    rw [if_neg hne1] at hfind
    have hvl : st.models_view.getLast? =
        some (st.models[min (st.model_view_offset + cap) st.models.length - 1]) := by
      rw [hview, view_getLast st.models st.model_view_offset cap (by omega) (by omega),
        List.getElem?_eq_getElem (by omega)]
    have hnx : st.models[i + 1]? = some (st.models[i + 1]) := List.getElem?_eq_getElem h
    simp only [model_menu_down, hlast, hfind, hvl, hnx]
    have hnxne : st.models[i + 1] ≠ "" := hne _ (List.getElem_mem h)
    by_cases hb : i + 1 = st.model_view_offset + cap
    · rw [if_pos, if_pos hb]
      refine ⟨?_, hnxne⟩
      rw [hsel]
      exact (hnd.getElem_inj_iff).mpr (by omega)
    · rw [if_neg, if_neg hb]
      rintro ⟨hc, -⟩
      rw [hsel] at hc
      have := (hnd.getElem_inj_iff).mp hc
      omega
  · rw [dif_neg h]
    have heq : st.model_view_selected = st.models[st.models.length - 1] := by
      rw [hsel]
      congr 1
      omega
    rw [if_pos heq] at hfind
    simp only [model_menu_down, hlast, hfind]

/-- Characterisation of the upward viewport update, symmetric to
`model_menu_down_char`: a no-op at the first element, otherwise a move to
index `i-1` with the offset decremented exactly when the old selection sat
on the first visible row.  The decrement cannot underflow: it only happens
when `i = offset` and the scan guarantees `0 < i`. -/
theorem model_menu_up_char (st : AppState) (cap i : Nat) (hi : i < st.models.length)
    (hnd : st.models.Nodup)
    (hne : ∀ m ∈ st.models, m ≠ "")
    (hsel : st.model_view_selected = st.models[i])
    (hview : st.models_view = (st.models.drop st.model_view_offset).take cap)
    (hlo : st.model_view_offset ≤ i) (hhi : i < st.model_view_offset + cap) :
    model_menu_up st =
      if h : 0 < i then
        some { st with
          model_view_selected := st.models[i - 1],
          model_view_offset :=
            if i = st.model_view_offset then st.model_view_offset - 1
            else st.model_view_offset }
      else some st := by
  have hz : 0 < st.models.length := by omega
  have hfirst : st.models.head?.getD "" = st.models[0] := by
    rw [List.head?_eq_getElem?, List.getElem?_eq_getElem (by omega)]
    rfl
  have hfind := findAdv_nodup st.model_view_selected (st.models[0])
    st.models i hnd hi hsel.symm
  by_cases h : 0 < i
  · rw [dif_pos h]
    have him : i - 1 < st.models.length := by omega
    have hoffb : st.model_view_offset < st.models.length := by omega
    have hne1 : st.model_view_selected ≠ st.models[0] := by
      rw [hsel]
      intro hc
      have := (hnd.getElem_inj_iff).mp hc
      omega
    rw [if_neg hne1] at hfind
    have hvf : st.models_view.head? = some (st.models[st.model_view_offset]) := by
      rw [hview, view_head st.models st.model_view_offset cap (by omega),
        List.getElem?_eq_getElem (by omega)]
    have hpv : st.models[i - 1]? = some (st.models[i - 1]) :=
      List.getElem?_eq_getElem (by omega)
    simp only [model_menu_up, hfirst, hfind, hvf, hpv]
    have hpvne : st.models[i - 1] ≠ "" := hne _ (List.getElem_mem (by omega))
    by_cases hb : i = st.model_view_offset
    · rw [if_pos, if_pos hb]
      refine ⟨?_, hpvne⟩
      rw [hsel]
      exact (hnd.getElem_inj_iff).mpr (by omega)
    · rw [if_neg, if_neg hb]
      rintro ⟨hc, -⟩
      rw [hsel] at hc
      have := (hnd.getElem_inj_iff).mp hc
      omega
  · rw [dif_neg h]
    have heq : st.model_view_selected = st.models[0] := by
      rw [hsel]
      congr 1
      omega
    rw [if_pos heq] at hfind
    simp only [model_menu_up, hfirst, hfind]

/-- C2 counterexample: on the in-game text-entry screen with no request
processing, pressing `'q'` is captured by the guarded character arm and
appended to the range text; the exit flag stays `false`, so the quit key
does not quit on every screen. -/
theorem C2_counterexample :
    dispatch [] (KeyEvt.char 'q') c2_counterexample_state =
      some { c2_counterexample_state with range_input := ['q'] } ∧
    ({ c2_counterexample_state with range_input := ['q'] }).exit = false := by
  decide

/-- C2 (amended): pressing `'q'` sets the exit flag on every screen except
the in-game text-entry screen while no request is processing — there it is
appended to the focused text field — and from any state with the exit flag
set the control loop terminates without running another iteration. -/
theorem C2_quit_amended :
    (∀ (fetched : List String) (st : AppState),
        isGameText st.screen = false ∨ st.processing_request = true →
        dispatch fetched (KeyEvt.char 'q') st = some { st with exit := true }) ∧
    (∀ (envs : List Env) (st : AppState), st.exit = true → run envs st = some st) ∧
    (∀ (fetched : List String) (st : AppState),
        st.screen = Screen.InGame (GameScreen.Game GameItem.Range) →
        st.processing_request = false →
        dispatch fetched (KeyEvt.char 'q') st =
          some { st with range_input := st.range_input ++ ['q'] }) ∧
    (∀ (fetched : List String) (st : AppState),
        st.screen = Screen.InGame (GameScreen.Game GameItem.Input) →
        st.processing_request = false →
        dispatch fetched (KeyEvt.char 'q') st =
          some { st with input := st.input ++ ['q'] }) := by
  refine ⟨?_, ?_, ?_, ?_⟩
  · rintro fetched st (h | h) <;> simp [dispatch, h]
  · intro envs st h
    cases envs with
    | nil => rfl
    | cons e rest => simp [run, h]
  · intro fetched st hscr hproc
    simp [dispatch, hscr, hproc, handle_textual_input, isGameText]
  · intro fetched st hscr hproc
    simp [dispatch, hscr, hproc, handle_textual_input, isGameText]

/-- C2 witness: `C2_quit_amended` applied at the initial state. -/
theorem C2_witness :
    dispatch [] (KeyEvt.char 'q') (appDefault none "key") =
      some { appDefault none "key" with exit := true } :=
  C2_quit_amended.1 [] (appDefault none "key") (Or.inl (by decide))

/-- C4 counterexample: applying select at `InGame(EndMenu(Repeat))` with
non-empty round data moves to `InGame(Game(Range))` but leaves the range
text, the guess text and the stored outcome uncleared. -/
theorem C4_counterexample :
    handle_l_input [] c4_counterexample_state =
      some { c4_counterexample_state with
        screen := Screen.InGame (GameScreen.Game GameItem.Range) } ∧
    ({ c4_counterexample_state with
        screen := Screen.InGame (GameScreen.Game GameItem.Range) }).range_input ≠ [] ∧
    ({ c4_counterexample_state with
        screen := Screen.InGame (GameScreen.Game GameItem.Range) }).input ≠ [] ∧
    ({ c4_counterexample_state with
        screen := Screen.InGame (GameScreen.Game GameItem.Range) }).result ≠ none := by
  decide

/-- C4 (amended): the select command at `MainMenu(Play)` or at
`InGame(EndMenu(Repeat))` sets the screen to `InGame(Game(Range))` and
leaves every other field — in particular the range text, the guess text
and the stored outcome — unchanged. -/
theorem C4_round_start_amended (st : AppState) (fetched : List String)
    (hscr : st.screen = Screen.MainMenu MainMenuItem.Play ∨
            st.screen = Screen.InGame (GameScreen.EndMenu EndMenuItem.Repeat)) :
    handle_l_input fetched st =
      some { st with screen := Screen.InGame (GameScreen.Game GameItem.Range) } := by
  rcases hscr with h | h <;> simp [handle_l_input, h]

/-- C4 witness: `C4_round_start_amended` applied at a concrete end-menu state. -/
theorem C4_witness :
    handle_l_input [] c4_counterexample_state =
      some { c4_counterexample_state with
        screen := Screen.InGame (GameScreen.Game GameItem.Range) } :=
  C4_round_start_amended c4_counterexample_state [] (Or.inr (by decide))

/-- C5 counterexample: entering the model menu when the catalogue already
holds `"m1"` and the fetch returns `"m2"` yields the catalogue
`["m1", "m2"]`, not the freshly fetched `["m2"]` — `fetch_models` appends
without clearing, so residue from prior fetches remains. -/
theorem C5_counterexample :
    handle_l_input ["m2"] c5_counterexample_state =
      some { c5_counterexample_state with
        screen := Screen.ModelMenu, models := ["m1", "m2"],
        model_view_selected := "m1", model_view_offset := 0 } ∧
    (["m1", "m2"] : List String) ≠ ["m2"] := by
  decide

/-- C5 (amended): applying select at `OptionsMenu(Model)` enters
`ModelMenu`, appends the freshly fetched entries to the existing catalogue,
resets the scroll offset to 0 and sets the highlighted identifier to the
first element of the resulting catalogue. -/
theorem C5_model_menu_entry_amended (st : AppState) (fetched : List String) (m0 : String)
    (hscr : st.screen = Screen.OptionsMenu OptionsMenuItem.Model)
    (hhead : (st.models ++ fetched).head? = some m0) :
    handle_l_input fetched st =
      some { st with
        screen := Screen.ModelMenu,
        models := st.models ++ fetched,
        model_view_offset := 0,
        model_view_selected := m0 } := by
  simp [handle_l_input, hscr, fetch_models, hhead]

/-- C5 witness: `C5_model_menu_entry_amended` applied at a concrete state. -/
theorem C5_witness :
    handle_l_input ["m2"] c5_counterexample_state =
      some { c5_counterexample_state with
        screen := Screen.ModelMenu, models := ["m1", "m2"],
        model_view_offset := 0, model_view_selected := "m1" } := by
  have h := C5_model_menu_entry_amended c5_counterexample_state ["m2"] "m1"
    (by decide) (by decide)
  rw [h]
  decide

/-- C8 counterexample: at `OptionsMenu(Model)` the back key leaves the
screen at `OptionsMenu(Model)`, which is not `MainMenu(Play)` — the
source's `handle_h_input` only reacts in `ModelMenu`. -/
theorem C8_counterexample :
    (handle_h_input c8_counterexample_state).screen =
      Screen.OptionsMenu OptionsMenuItem.Model ∧
    Screen.OptionsMenu OptionsMenuItem.Model ≠ Screen.MainMenu MainMenuItem.Play := by
  decide

/-- C8 (amended): applying the back command while the screen is
`OptionsMenu(Model)` is a no-op — the state, in particular the screen, is
unchanged. -/
theorem C8_back_amended (st : AppState)
    (hscr : st.screen = Screen.OptionsMenu OptionsMenuItem.Model) :
    handle_h_input st = st := by
  simp [handle_h_input, hscr]

/-- C8 witness: `C8_back_amended` applied at a concrete state. -/
theorem C8_witness : handle_h_input c8_counterexample_state = c8_counterexample_state :=
  C8_back_amended c8_counterexample_state (by decide)

/-- C1: divergence exhibited for the claim that `validate_input` accepts
exactly the well-formed inputs with `start < end` and `start ≤ guess ≤ end`.
At range text `"5..10"` and guess `"7"` — digit-only syntax, bounds 5 < 10,
guess inside the range — the spec-faithful validator accepts, but
`validate_input` returns `false`: it parses the end bound from the reversed
digit string `"01"`, obtaining 1, so its `start < end` check fails. -/
theorem C1_validate_reversed_end :
    spec_validate_input "5..10".toList "7".toList = true ∧
    validate_input "5..10".toList "7".toList = some false := by
  decide

/-- C3: the claim fails on the code.  The guess `"18446744073709551616"`
(2^64) is all-digit, so both regexes match, but its `usize` parse
overflows and the `.expect(..)` in `validate_input` panics (`none`)
instead of reporting a validation failure. -/
theorem C3_overflow_panics :
    matchRangedRe "1..2".toList = true ∧
    matchInputRe "18446744073709551616".toList = true ∧
    validate_input "1..2".toList "18446744073709551616".toList = none := by
  decide

/-- A successful validation yields parsed bounds with `start < end` and a
parsed guess between them (bounds as `parseRange` produces them). -/
theorem validate_input_true_elim (r g : List Char)
    (h : validate_input r g = some true) :
    ∃ s e gv, parseRange r = some (s, e) ∧ parseUsize g = some gv ∧
      s < e ∧ s ≤ gv ∧ gv ≤ e := by
  unfold validate_input at h
  by_cases hm : (matchRangedRe r && matchInputRe g) = true
  · rw [if_pos hm] at h
    rcases hpr : parseRange r with - | ⟨s, e⟩ <;> rw [hpr] at h
    · simp at h
    · rcases hpg : parseUsize g with - | gv <;> rw [hpg] at h
      · simp at h
      · refine ⟨s, e, gv, rfl, rfl, ?_⟩
        simpa using h
  · rw [if_neg hm] at h
    simp at h

/-- The random draw always lands in the inclusive requested range. -/
theorem rngDraw_mem (seed lo hi : Nat) (h : lo ≤ hi) :
    lo ≤ rngDraw seed lo hi ∧ rngDraw seed lo hi ≤ hi := by
  unfold rngDraw
  have hm : seed % (hi - lo + 1) < hi - lo + 1 := Nat.mod_lt seed (by omega)
  omega

/-- C9: whenever round resolution runs on a state that passed validation
(so the bounds parsed by `parseRange` satisfy `start < end`) and the remote
delivers a non-empty response, the drawn value lies within
`[start, end]` inclusive for every RNG seed, the stored outcome is
`Correct` iff the drawn value equals the parsed guess (`Incorrect` iff it
differs), the screen transitions to `InGame(EndMenu(Repeat))` and the
processing flag is cleared. -/
theorem C9_round_resolution (st : AppState) (env : Env) (out : String)
    (rest : List NetResp)
    (hp : st.processing_request = true)
    (hv : validate_input st.range_input st.input = some true)
    (hr : env.resps = NetResp.ok out :: rest) (hout : out ≠ "") :
    ∃ s e g, parseRange st.range_input = some (s, e) ∧
      parseUsize st.input = some g ∧
      s ≤ rngDraw env.rngSeed s e ∧ rngDraw env.rngSeed s e ≤ e ∧
      ∃ st', handle_request env st = some st' ∧
        st'.screen = Screen.InGame (GameScreen.EndMenu EndMenuItem.Repeat) ∧
        st'.processing_request = false ∧
        (st'.result = some RandomResult.Correct ↔ g = rngDraw env.rngSeed s e) ∧
        (st'.result = some RandomResult.Incorrect ↔ g ≠ rngDraw env.rngSeed s e) := by
  obtain ⟨s, e, g, hpr, hpg, hlt, hgs, hge⟩ := validate_input_true_elim _ _ hv
  obtain ⟨hd1, hd2⟩ := rngDraw_mem env.rngSeed s e (Nat.le_of_lt hlt)
  refine ⟨s, e, g, hpr, hpg, hd1, hd2, ?_⟩
  have hpro : process_random env.rngSeed st =
      some { st with result := some (if g = rngDraw env.rngSeed s e then RandomResult.Correct
                                     else RandomResult.Incorrect) } := by
    simp [process_random, hpr, hpg, Nat.le_of_lt hlt]
  have hreq : process_request env.resps
      { st with result := some (if g = rngDraw env.rngSeed s e then RandomResult.Correct
                                else RandomResult.Incorrect) } =
      some { st with
        result := some (if g = rngDraw env.rngSeed s e then RandomResult.Correct
                        else RandomResult.Incorrect),
        chat_completion_output := out } := by
    rw [hr]
    simp [process_request, hout]
  have hall : handle_request env st =
      some { st with
        result := some (if g = rngDraw env.rngSeed s e then RandomResult.Correct
                        else RandomResult.Incorrect),
        chat_completion_output := out,
        screen := Screen.InGame (GameScreen.EndMenu EndMenuItem.Repeat),
        processing_request := false } := by
    rw [handle_request, if_pos hp, hpro, Option.some_bind, hreq, Option.map_some']
  refine ⟨_, hall, rfl, rfl, ?_, ?_⟩
  · by_cases hc : g = rngDraw env.rngSeed s e <;> simp [hc]
  · by_cases hc : g = rngDraw env.rngSeed s e <;> simp [hc]

/-- C9 witness: `C9_round_resolution` applied at a concrete pending round. -/
theorem C9_witness :
    ∃ st', handle_request c9_witness_env c9_witness_state = some st' ∧
      st'.screen = Screen.InGame (GameScreen.EndMenu EndMenuItem.Repeat) ∧
      st'.processing_request = false := by
  obtain ⟨s, e, g, -, -, -, -, st', h1, h2, h3, -⟩ :=
    C9_round_resolution c9_witness_state c9_witness_env "yeehaw" [] rfl (by decide)
      rfl (by decide)
  exact ⟨st', h1, h2, h3⟩

/-- C6: on a duplicate-free catalogue of non-empty identifiers with the
rendered window consistent with the offset and capacity, the forward
advance is a no-op when the highlighted model is the catalogue's last
element, and otherwise moves the highlight to the next element,
incrementing the offset by exactly 1 when the element highlighted before
the move was the last visible row (`offset + capacity - 1`) and leaving it
unchanged otherwise; and the concrete scenario — 5 items, capacity 3,
starting at item 0 with offset 0 — yields highlighted item 3 with offset 1
after three forward advances and highlighted item 4 with offset 2 after
one more, running the real render/dispatch pipeline on `'j'` keys. -/
theorem C6_forward_advance :
    (∀ (st : AppState) (cap i : Nat) (hi : i < st.models.length),
        st.models.Nodup → (∀ m ∈ st.models, m ≠ "") →
        st.model_view_selected = st.models[i] →
        st.models_view = (st.models.drop st.model_view_offset).take cap →
        st.model_view_offset ≤ i → i < st.model_view_offset + cap →
        (i + 1 = st.models.length →
          handle_model_menu_updates ModelMenuDirection.Down st = some st) ∧
        ∀ h : i + 1 < st.models.length,
          handle_model_menu_updates ModelMenuDirection.Down st =
            some { st with
              model_view_selected := st.models[i + 1],
              model_view_offset :=
                if i + 1 = st.model_view_offset + cap then st.model_view_offset + 1
                else st.model_view_offset }) ∧
    (run (List.replicate 3 c6_scenario_env) c6_scenario_start).map
        (fun s => (s.model_view_selected, s.model_view_offset)) = some ("m3", 1) ∧
    (run (List.replicate 4 c6_scenario_env) c6_scenario_start).map
        (fun s => (s.model_view_selected, s.model_view_offset)) = some ("m4", 2) := by
  refine ⟨?_, by decide, by decide⟩
  intro st cap i hi hnd hne hsel hview hlo hhi
  have hchar := model_menu_down_char st cap i hi hnd hne hsel hview hlo hhi
  constructor
  · intro hlast
    rw [show handle_model_menu_updates ModelMenuDirection.Down st = model_menu_down st
      from rfl, hchar, dif_neg (by omega)]
  · intro h
    rw [show handle_model_menu_updates ModelMenuDirection.Down st = model_menu_down st
      from rfl, hchar, dif_pos h]

/-- C6 witness: the general rule of `C6_forward_advance` applied at a concrete state. -/
theorem C6_witness :
    handle_model_menu_updates ModelMenuDirection.Down c6_witness_state =
      some { c6_witness_state with model_view_selected := "c", model_view_offset := 0 } := by
  have h := (C6_forward_advance.1 c6_witness_state 3 1 (by decide) (by decide) (by decide)
    (by decide) (by decide) (by decide) (by decide)).2 (by decide)
  rw [h]
  decide

/-- C7 (amended): for a non-empty, duplicate-free catalogue of non-empty
identifiers, from any state whose highlighted identifier sits at an index
inside the rendered window `[offset, offset+capacity)`, any advance call
(either direction) succeeds and again leaves the highlighted identifier a
member of the unchanged catalogue, at an index `j` with `offset ≤ j` and
`j < offset + capacity`. -/
theorem C7_invariant_amended (st : AppState) (cap i : Nat) (dir : ModelMenuDirection)
    (hi : i < st.models.length)
    (hnd : st.models.Nodup) (hne : ∀ m ∈ st.models, m ≠ "")
    (hsel : st.model_view_selected = st.models[i])
    (hview : st.models_view = (st.models.drop st.model_view_offset).take cap)
    (hlo : st.model_view_offset ≤ i) (hhi : i < st.model_view_offset + cap) :
    ∃ (st' : AppState) (j : Nat) (hj : j < st'.models.length),
      handle_model_menu_updates dir st = some st' ∧
      st'.models = st.models ∧
      st'.model_view_selected = st'.models[j] ∧
      st'.model_view_offset ≤ j ∧ j < st'.model_view_offset + cap := by
  cases dir with
  | Down =>
    have hchar := model_menu_down_char st cap i hi hnd hne hsel hview hlo hhi
    by_cases h : i + 1 < st.models.length
    · rw [dif_pos h] at hchar
      refine ⟨_, i + 1, by simpa using h, hchar, rfl, by simp, ?_, ?_⟩ <;>
        · simp only
          split <;> omega
    · rw [dif_neg h] at hchar
      exact ⟨st, i, hi, hchar, rfl, hsel, hlo, hhi⟩
  | Up =>
    have hchar := model_menu_up_char st cap i hi hnd hne hsel hview hlo hhi
    by_cases h : 0 < i
    · rw [dif_pos h] at hchar
      refine ⟨_, i - 1, by simpa using Nat.lt_of_le_of_lt (Nat.sub_le i 1) hi,
        hchar, rfl, by simp, ?_, ?_⟩ <;>
        · simp only
          split <;> omega
    · rw [dif_neg h] at hchar
      exact ⟨st, i, hi, hchar, rfl, hsel, hlo, hhi⟩

/-- C7 counterexample: the catalogue `["x", ""]` with capacity 1, offset 0
and highlighted `"x"` (index 0, inside the window) satisfies the invariant,
but one forward advance selects the empty identifier at index 1 while the
offset stays 0 — the source skips the offset bump because
`first_model_after_view.is_empty()` — so the highlighted index no longer
lies in `[offset, offset+capacity)`: no index below `offset + 1` holds the
highlighted identifier. -/
theorem C7_counterexample :
    c7_counterexample_state.models[0]? = some c7_counterexample_state.model_view_selected ∧
    handle_model_menu_updates ModelMenuDirection.Down c7_counterexample_state =
      some { c7_counterexample_state with model_view_selected := "" } ∧
    ({ c7_counterexample_state with model_view_selected := "" }).model_view_offset = 0 ∧
    ({ c7_counterexample_state with model_view_selected := "" }).models = ["x", ""] ∧
    ({ c7_counterexample_state with model_view_selected := "" }).models[0]? ≠ some "" := by
  decide

/-- C7 witness: `C7_invariant_amended` applied at a concrete state. -/
theorem C7_witness :
    ∃ (st' : AppState) (j : Nat) (hj : j < st'.models.length),
      handle_model_menu_updates ModelMenuDirection.Up c7_witness_state = some st' ∧
      st'.models = c7_witness_state.models ∧
      st'.model_view_selected = st'.models[j] ∧
      st'.model_view_offset ≤ j ∧ j < st'.model_view_offset + 2 :=
  C7_invariant_amended c7_witness_state 2 1 ModelMenuDirection.Up (by decide) (by decide)
    (by decide) (by decide) (by decide) (by decide) (by decide)

/-- The viewport update never touches the score. -/
theorem score_model_menu (dir : ModelMenuDirection) (st st' : AppState)
    (h : handle_model_menu_updates dir st = some st') : st'.score = st.score := by
  cases dir <;>
    simp only [handle_model_menu_updates, model_menu_down, model_menu_up] at h <;>
    (repeat' split at h) <;> (try cases h) <;> simp_all

/-- Text editing never touches the score. -/
theorem score_textual (op : OperationType) (c : Option Char) (st st' : AppState)
    (h : handle_textual_input op c st = some st') : st'.score = st.score := by
  simp only [handle_textual_input] at h
  (repeat' split at h) <;> (try cases h) <;> simp_all

/-- The select key handler never touches the score. -/
theorem score_l (fetched : List String) (st st' : AppState)
    (h : handle_l_input fetched st = some st') : st'.score = st.score := by
  simp only [handle_l_input, fetch_models] at h
  (repeat' split at h) <;> (try cases h) <;> simp_all

/-- The down key handler never touches the score. -/
theorem score_j (st st' : AppState) (h : handle_j_input st = some st') :
    st'.score = st.score := by
  simp only [handle_j_input] at h
  split at h <;> first
    | (cases h; rfl)
    | exact score_model_menu ModelMenuDirection.Down _ _ h

/-- The up key handler never touches the score. -/
theorem score_k (st st' : AppState) (h : handle_k_input st = some st') :
    st'.score = st.score := by
  simp only [handle_k_input] at h
  split at h <;> first
    | (cases h; rfl)
    | exact score_model_menu ModelMenuDirection.Up _ _ h

/-- The back key handler never touches the score. -/
theorem score_h (st : AppState) : (handle_h_input st).score = st.score := by
  simp only [handle_h_input]
  split <;> rfl

/-- Round resolution never touches the score. -/
theorem score_process_random (seed : Nat) (st st' : AppState)
    (h : process_random seed st = some st') : st'.score = st.score := by
  simp only [process_random] at h
  (repeat' split at h) <;> (try cases h) <;> simp_all

/-- The remote call never touches the score. -/
theorem score_process_request (resps : List NetResp) (st st' : AppState)
    (h : process_request resps st = some st') : st'.score = st.score := by
  induction resps with
  | nil => simp [process_request] at h
  | cons r rest ih =>
    cases r with
    | err => simp [process_request] at h
    | ok content =>
      simp only [process_request] at h
      split at h
      · exact ih h
      · cases h; rfl

/-- Request handling never touches the score. -/
theorem score_handle_request (env : Env) (st st' : AppState)
    (h : handle_request env st = some st') : st'.score = st.score := by
  simp only [handle_request] at h
  split at h
  · rcases h1 : process_random env.rngSeed st with - | st1 <;> rw [h1] at h
    · simp at h
    · simp only [Option.some_bind] at h
      rcases h2 : process_request env.resps st1 with - | st2 <;> rw [h2] at h
      · simp at h
      · simp only [Option.map_some'] at h
        cases h
        have e1 := score_process_random env.rngSeed st st1 h1
        have e2 := score_process_request env.resps st1 st2 h2
        simpa using e2.trans e1
  · cases h; rfl

/-- Key dispatch never touches the score. -/
theorem score_dispatch (fetched : List String) (k : KeyEvt) (st st' : AppState)
    (h : dispatch fetched k st = some st') : st'.score = st.score := by
  cases k with
  | char c =>
    simp only [dispatch] at h
    by_cases hg : (isGameText st.screen && !st.processing_request) = true
    · rw [if_pos hg] at h
      exact score_textual _ _ _ _ h
    · rw [if_neg hg] at h
      by_cases hq : c = 'q'
      · rw [if_pos hq] at h; cases h; rfl
      · rw [if_neg hq] at h
        by_cases hj : c = 'j'
        · rw [if_pos hj] at h; exact score_j _ _ h
        · rw [if_neg hj] at h
          by_cases hk : c = 'k'
          · rw [if_pos hk] at h; exact score_k _ _ h
          · rw [if_neg hk] at h
            by_cases hl : c = 'l'
            · rw [if_pos hl] at h; exact score_l _ _ _ h
            · rw [if_neg hl] at h
              by_cases hh : c = 'h'
              · rw [if_pos hh] at h; cases h; exact score_h st
              · rw [if_neg hh] at h; cases h; rfl
  | tab =>
    simp only [dispatch] at h
    by_cases hg : (isGameText st.screen && !st.processing_request) = true
    · rw [if_pos hg] at h
      exact score_textual _ _ _ _ h
    · rw [if_neg hg] at h; cases h; rfl
  | backspace =>
    simp only [dispatch] at h
    by_cases hg : (isGameText st.screen && !st.processing_request) = true
    · rw [if_pos hg] at h
      exact score_textual _ _ _ _ h
    · rw [if_neg hg] at h; cases h; rfl
  | enter =>
    simp only [dispatch] at h
    by_cases hg : (isGameText st.screen && !st.processing_request) = true
    · rw [if_pos hg] at h
      split at h <;> (try cases h) <;> simp_all
    · rw [if_neg hg] at h; cases h; rfl
  | other =>
    simp only [dispatch] at h
    by_cases hg : (isGameText st.screen && !st.processing_request) = true
    · rw [if_pos hg] at h; cases h; rfl
    · rw [if_neg hg] at h; cases h; rfl

/-- The render pass never touches the score. -/
theorem score_render (cap : Nat) (st st' : AppState) (h : render cap st = some st') :
    st'.score = st.score := by
  simp only [render] at h
  (repeat' split at h) <;> (try cases h) <;> simp_all

/-- One event-handling step never touches the score. -/
theorem score_handle_events (env : Env) (st st' : AppState)
    (h : handle_events env st = some st') : st'.score = st.score := by
  simp only [handle_events] at h
  rcases h1 : handle_request env st with - | st1 <;> rw [h1] at h
  · simp at h
  · simp only [Option.some_bind] at h
    have e1 := score_handle_request env st st1 h1
    split at h
    · cases h; exact e1
    · exact (score_dispatch _ _ _ _ h).trans e1

/-- The control loop preserves the score across any number of iterations. -/
theorem score_run (envs : List Env) (st st' : AppState) (h : run envs st = some st') :
    st'.score = st.score := by
  induction envs generalizing st with
  | nil => cases h; rfl
  | cons env rest ih =>
    simp only [run] at h
    split at h
    · cases h; rfl
    · rcases h1 : (render env.cap st).bind (handle_events env) with - | st1 <;> rw [h1] at h
      · simp at h
      · rcases h2 : render env.cap st with - | st2 <;> rw [h2] at h1
        · simp at h1
        · simp only [Option.some_bind] at h1
          have e2 := score_render env.cap st st2 h2
          have e1 := score_handle_events env st2 st1 h1
          exact (ih st1 h).trans (e1.trans e2)

/-- C10: the score is 0 in the initial state and no reachable execution of
the control loop — any environment inputs, any key events, any number of
iterations — ever changes it: every terminating run from the initial state
ends with score 0. -/
theorem C10_score_frame (envs : List Env) (cliModel : Option String) (apiKey : String)
    (st' : AppState) (h : run envs (appDefault cliModel apiKey) = some st') :
    st'.score = 0 :=
  score_run envs (appDefault cliModel apiKey) st' h

/-- C10 witness: `C10_score_frame` applied to the empty run. -/
theorem C10_witness : ((appDefault none "key").score = 0) ∧
    ((appDefault (some "m") "key2").score = 0) :=
  ⟨C10_score_frame [] none "key" (appDefault none "key") rfl,
   C10_score_frame [] (some "m") "key2" (appDefault (some "m") "key2") rfl⟩
